import Mathlib

/-!
Shallow embedding of create_video.py, a batch media-assembly pipeline:
scan a content directory for numbered audio files per language variant,
build one video segment per image/audio pair via an external transcoder,
write a concatenation manifest, and concatenate, independently per variant.

Filenames and paths are modelled as lists of characters.  The external
transcoder (ffmpeg) is an opaque collaborator, modelled as an oracle giving
the outcome of each invocation.  The content directory is modelled as the
list of filenames it contains.
-/

namespace CreateVideo

/-- Filenames and paths, modelled as lists of characters. -/
abbrev Str := List Char

/-- View of a Lean string literal as the character-list representation. -/
def str (s : String) : Str := s.data

/-- Index of the last dot in a filename, if any. -/
def rfindDot : Str → Option Nat
  | [] => none
  | c :: cs =>
    match rfindDot cs with
    | some i => some (i + 1)
    | none => if c = '.' then some 0 else none

/-- Stem of a filename: the name without its final extension.  Following the
pathlib rule, a suffix exists only when the last dot is neither the first nor
the last character of the name. -/
def stem (n : Str) : Str :=
  match rfindDot n with
  | none => n
  | some i => if 0 < i ∧ i + 1 < n.length then n.take i else n

/-- Split a string on underscores, as the Python split method does: the
result is always nonempty, and empty components are kept. -/
def splitUnd : Str → List Str
  | [] => [[]]
  | c :: cs =>
    if c = '_' then [] :: splitUnd cs
    else
      match splitUnd cs with
      | [] => [[c]]
      | p :: ps => (c :: p) :: ps

/-- Numeric value of a nonempty all-digit string, in decimal. -/
def digitsVal (s : Str) : Option Nat :=
  if s = [] then none
  else if s.all Char.isDigit then
    some (s.foldl (fun a c => a * 10 + (c.toNat - 48)) 0)
  else none

/-- Model of Python integer parsing: optional surrounding whitespace, an
optional sign, then one or more decimal digits. -/
def parseIntPy (s : Str) : Option Int :=
  let t := ((s.dropWhile Char.isWhitespace).reverse.dropWhile Char.isWhitespace).reverse
  match t with
  | '-' :: rest => (digitsVal rest).map (fun v => -(v : Int))
  | '+' :: rest => (digitsVal rest).map (fun v => (v : Int))
  | _ => (digitsVal t).map (fun v => (v : Int))

/-- Segment number extracted from an audio file name, as in the body of the
scanning loop: the second underscore-separated component of the stem, parsed
as an integer; none when the component is missing or does not parse. -/
def segNum (f : Str) : Option Int :=
  match (splitUnd (stem f))[1]? with
  | none => none
  | some p => parseIntPy p

/-- Matching of a single-star glob pattern with literal head and tail (the
patterns used by the scanner contain one star and no other metacharacter): a
name matches exactly when it extends the head and the tail without overlap. -/
def matchGlob (hd tl n : Str) : Bool :=
  hd.isPrefixOf n && tl.isSuffixOf n && decide (hd.length + tl.length ≤ n.length)

/-- The audio files the scanner selects for a variant suffix: for a nonempty
suffix, the glob candidates for that suffix; for the default variant, the
plain audio glob with stems ending in the Spanish marker excluded. -/
def audioFilesFor (dir : List Str) (suffix : Str) : List Str :=
  if suffix ≠ [] then
    dir.filter (fun f => matchGlob (str "audio_") (suffix ++ str ".wav") f)
  else
    (dir.filter (fun f => matchGlob (str "audio_") (str ".wav") f)).filter
      (fun f => !((str "_es").isSuffixOf (stem f)))

/-- Embedding of find_max_segment_number: return zero when no file matches,
otherwise fold over the matched files keeping the largest parsed segment
number seen, starting from zero; files that do not parse are skipped. -/
def find_max_segment_number (dir : List Str) (suffix : Str) : Int :=
  let audio_files := audioFilesFor dir suffix
  if audio_files = [] then 0
  else
    audio_files.foldl
      (fun m f =>
        match segNum f with
        | some n => if n > m then n else m
        | none => m) 0

/-- Modelled from the claim wording, for comparison with the code: the
maximum integer parsed over the matching files, or zero when no matching
file parses to an integer. -/
def scannerClaim (dir : List Str) (suffix : Str) : Int :=
  match (audioFilesFor dir suffix).filterMap segNum with
  | [] => 0
  | p :: ps => ps.foldl max p

/-- Decimal rendering of a natural number. -/
def natDigits (n : Nat) : Str := Nat.toDigits 10 n

/-- Image input filename for a segment index. -/
def imageName (i : Nat) : Str := str "image_" ++ natDigits i ++ str ".png"

/-- Audio input filename for a segment index of a variant. -/
def audioName (suffix : Str) (i : Nat) : Str :=
  str "audio_" ++ natDigits i ++ suffix ++ str ".wav"

/-- Segment artifact filename: the variant-qualified segment stem followed by
an underscore, the index and the mp4 extension. -/
def segmentFileName (suffix : Str) (i : Nat) : Str :=
  (if suffix = [] then str "segment" else str "segment" ++ suffix)
    ++ str "_" ++ natDigits i ++ str ".mp4"

/-- Path separator. -/
def sep : Str := str "/"

/-- Single-quote character, used by the manifest format. -/
def quoteC : Char := Char.ofNat 39

/-- Newline character, terminating each manifest line. -/
def nlC : Char := Char.ofNat 10

/-- One manifest line for an absolute artifact path: the word file, a space,
the path surrounded by single quotes, then a newline. -/
def manifestLine (p : Str) : Str := str "file " ++ [quoteC] ++ p ++ [quoteC, nlC]

/-- Absolute path of a segment artifact under the segments directory. -/
def segPath (segDir : Str) (suffix : Str) (i : Nat) : Str :=
  segDir ++ sep ++ segmentFileName suffix i

/-- Manifest line for the artifact of one segment index. -/
def manifestLineAt (segDir suffix : Str) (i : Nat) : Str :=
  manifestLine (segPath segDir suffix i)

/-- Manifest lines for a list of segment indices, in list order. -/
def mapManifest (segDir suffix : Str) (l : List Nat) : List Str :=
  l.map (manifestLineAt segDir suffix)

/-- Whether both inputs of an asset pair are present in the content
directory. -/
def hasPair (cd : List Str) (suffix : Str) (i : Nat) : Bool :=
  decide (imageName i ∈ cd) && decide (audioName suffix i ∈ cd)

/-- Oracle for the external transcoder: whether the tool is installed (when
it is not, the first invocation raises and the process exits with status 1),
the outcome of the segment-synthesis invocation for each index, and the
outcome of the concatenation invocation. -/
structure Transcoder where
  installed : Bool
  segOk : Nat → Bool
  concatOk : Bool

/-- Result of the per-index segment loop.  Each constructor carries the
indices skipped with a warning, the indices for which the transcoder was
invoked, and the indices of the artifacts created, in order. -/
inductive LoopOut where
  | exit1 (skipped invoked created : List Nat)
  | fail (i : Nat) (skipped invoked created : List Nat)
  | done (skipped invoked created : List Nat)
deriving DecidableEq, Repr

/-- Embedding of the per-index loop of process_language: for each index in
turn, skip with a warning when the image or the audio input is missing,
otherwise invoke the transcoder; a failed invocation ends the loop at once,
and a missing tool exits the process. -/
def segLoop (tc : Transcoder) (cd : List Str) (suffix : Str) :
    List Nat → List Nat → List Nat → List Nat → LoopOut
  | [], sk, inv, cr => .done sk inv cr
  | i :: rest, sk, inv, cr =>
    if imageName i ∈ cd then
      if audioName suffix i ∈ cd then
        if tc.installed then
          if tc.segOk i then segLoop tc cd suffix rest sk (inv ++ [i]) (cr ++ [i])
          else .fail i sk (inv ++ [i]) cr
        else .exit1 sk (inv ++ [i]) cr
      else segLoop tc cd suffix rest (sk ++ [i]) inv cr
    else segLoop tc cd suffix rest (sk ++ [i]) inv cr

/-- Created-indices component of a loop result, whichever way it ended. -/
def createdOf : LoopOut → List Nat
  | .exit1 _ _ c => c
  | .fail _ _ _ c => c
  | .done _ _ c => c

/-- Observable outcome of one process_language call: the exit status when the
call terminated the process, the returned truth value otherwise, the skipped,
invoked and created indices, the manifest lines when the manifest file was
written, whether the concatenation invocation was reached, and the final
output path once computed. -/
structure PLOut where
  exitCode : Option Nat
  retVal : Bool
  skipped : List Nat
  invoked : List Nat
  created : List Nat
  manifest : Option (List Str)
  concatInvoked : Bool
  finalOutput : Option Str
deriving DecidableEq, Repr

/-- Embedding of process_language: scan for the maximum segment index and
return failure when it is zero; run the segment loop over indices one to max;
on a failed invocation return failure with no manifest and no concatenation;
when the loop completes, fail if nothing was created, otherwise write the
manifest (one line per created artifact, in order) and invoke the
concatenation, whose outcome is the returned value. -/
def process_language (tc : Transcoder) (cd : List Str) (segDir outDir timestamp : Str)
    (suffix : Str) : PLOut :=
  let maxSeg := find_max_segment_number cd suffix
  if maxSeg = 0 then
    ⟨none, false, [], [], [], none, false, none⟩
  else
    match segLoop tc cd suffix (List.range' 1 maxSeg.toNat) [] [] [] with
    | .exit1 sk inv cr => ⟨some 1, false, sk, inv, cr, none, false, none⟩
    | .fail _ sk inv cr => ⟨none, false, sk, inv, cr, none, false, none⟩
    | .done sk inv cr =>
      if cr = [] then ⟨none, false, sk, inv, cr, none, false, none⟩
      else
        let lines := mapManifest segDir suffix cr
        let fin := outDir ++ sep ++ timestamp ++ str ".mp4"
        if tc.installed then
          ⟨none, tc.concatOk, sk, inv, cr, some lines, true, some fin⟩
        else
          ⟨some 1, false, sk, inv, cr, some lines, false, some fin⟩

/-- Hardcoded Mandarin output directory. -/
def mandarinDir : Str := str "/Users/geoffreycohen/Desktop/Mandarin CI"

/-- Hardcoded Spanish output directory. -/
def spanishDir : Str := str "/Users/geoffreycohen/Desktop/Spanish CI"

/-- Inputs of one run of the program: whether the resolved content directory
exists and is a directory, the files it contains, its absolute path, the
current time rendered as the timestamp, and the transcoder oracle. -/
structure MainEnv where
  dirValid : Bool
  files : List Str
  cdPath : Str
  now : Str
  tc : Transcoder

/-- Observable outcome of one run: the process exit status, whether the
segments and output directories were created, how many scanner calls the
orchestrator itself performed, and the outcome of each attempted variant. -/
structure MainOut where
  exitCode : Nat
  segmentsDirCreated : Bool
  outputDirsCreated : Bool
  scans : Nat
  mandarinRes : Option PLOut
  spanishRes : Option PLOut
deriving DecidableEq, Repr

/-- Embedding of main: validate the content directory (exit 1 when invalid,
before creating anything or scanning); create the output and segments
directories; compute the timestamp once; process the default variant when
its scan is positive, then the Spanish variant when its scan is positive; a
process exit inside a variant propagates; otherwise exit 0. -/
def main (m : MainEnv) : MainOut :=
  if !m.dirValid then
    ⟨1, false, false, 0, none, none⟩
  else
    let segDir := m.cdPath ++ sep ++ str "segments"
    let timestamp := m.now
    if find_max_segment_number m.files (str "") > 0 then
      let r1 := process_language m.tc m.files segDir mandarinDir timestamp (str "")
      match r1.exitCode with
      | some c => ⟨c, true, true, 1, some r1, none⟩
      | none =>
        if find_max_segment_number m.files (str "_es") > 0 then
          let r2 := process_language m.tc m.files segDir spanishDir timestamp (str "_es")
          match r2.exitCode with
          | some c => ⟨c, true, true, 2, some r1, some r2⟩
          | none => ⟨0, true, true, 2, some r1, some r2⟩
        else ⟨0, true, true, 2, some r1, none⟩
    else
      if find_max_segment_number m.files (str "_es") > 0 then
        let r2 := process_language m.tc m.files segDir spanishDir timestamp (str "_es")
        match r2.exitCode with
        | some c => ⟨c, true, true, 2, none, some r2⟩
        | none => ⟨0, true, true, 2, none, some r2⟩
      else ⟨0, true, true, 2, none, none⟩

/-! ### Scanner lemmas -/

/-- The scanning fold keeps the running maximum of the parsed values. -/
theorem foldl_scan_eq (l : List Str) : ∀ m : Int,
    l.foldl
      (fun m f =>
        match segNum f with
        | some n => if n > m then n else m
        | none => m) m
      = (l.filterMap segNum).foldl max m := by
  induction l with
  | nil => intro m; rfl
  | cons f l ih =>
    intro m
    cases h : segNum f with
    | none => simp [List.foldl_cons, List.filterMap_cons, h, ih]
    | some n =>
      have hmax : (if n > m then n else m) = max m n := by split <;> omega
      simp [List.foldl_cons, List.filterMap_cons, h, hmax, ih]

/-- The scanner returns the fold of max over the parsed segment numbers of
the selected files, started at zero. -/
theorem find_max_eq (d : List Str) (s : Str) :
    find_max_segment_number d s = ((audioFilesFor d s).filterMap segNum).foldl max 0 := by
  unfold find_max_segment_number
  by_cases h : audioFilesFor d s = []
  · simp [h]
  · simp [h, foldl_scan_eq]

/-- Folding max distributes over a max in the initial value. -/
theorem foldl_max_shift (l : List Int) : ∀ a b : Int,
    l.foldl max (max a b) = max a (l.foldl max b) := by
  induction l with
  | nil => intro a b; rfl
  | cons c l ih =>
    intro a b
    simp only [List.foldl_cons]
    rw [max_assoc, ih]

/-- The initial value bounds the fold of max from below. -/
theorem init_le_foldl_max (l : List Int) : ∀ b : Int, b ≤ l.foldl max b := by
  induction l with
  | nil => intro b; exact le_refl b
  | cons c l ih =>
    intro b
    exact le_trans (le_max_left b c) (ih (max b c))

/-- Every member of the list bounds the fold of max from below. -/
theorem mem_le_foldl_max {a : Int} {l : List Int} (h : a ∈ l) :
    ∀ b : Int, a ≤ l.foldl max b := by
  induction l with
  | nil => cases h
  | cons c l ih =>
    intro b
    simp only [List.foldl_cons]
    rcases List.mem_cons.mp h with rfl | hmem
    · exact le_trans (le_max_right b a) (init_le_foldl_max l (max b a))
    · exact ih hmem (max b c)

/-- Unfolding of the file selection for the default variant. -/
theorem audioFilesFor_default (d : List Str) :
    audioFilesFor d (str "") =
      (d.filter (fun f => matchGlob (str "audio_") (str ".wav") f)).filter
        (fun f => !((str "_es").isSuffixOf (stem f))) := by
  unfold audioFilesFor
  simp [show str "" = [] from rfl]

/-- Prepending a file either leaves the selected audio files unchanged or
prepends that file to them. -/
theorem audioFilesFor_cons (d : List Str) (s : Str) (f : Str) :
    audioFilesFor (f :: d) s = audioFilesFor d s ∨
    audioFilesFor (f :: d) s = f :: audioFilesFor d s := by
  unfold audioFilesFor
  by_cases hs : s = []
  · subst hs
    simp only [ne_eq, not_true_eq_false, if_false, List.filter_cons]
    by_cases h1 : matchGlob (str "audio_") (str ".wav") f = true
    · simp only [h1, if_true, List.filter_cons]
      by_cases h2 : (!((str "_es").isSuffixOf (stem f))) = true
      · right; simp [h2]
      · left; simp at h2; simp [h2]
    · left; simp at h1; simp [h1]
  · simp only [ne_eq, hs, not_false_eq_true, if_true, List.filter_cons]
    by_cases h1 : matchGlob (str "audio_") (s ++ str ".wav") f = true
    · right; simp [h1]
    · left; simp at h1; simp [h1]

/-- C1 (amended): the Asset Scanner returns the maximum of zero and the
integers parsed from the second underscore-separated component of the
matching audio filenames (so in particular zero when no matching file parses
to an integer), and a file whose component does not parse never affects the
result. -/
theorem scanner_max_characterization (d : List Str) (s : Str) :
    find_max_segment_number d s = max 0 (scannerClaim d s) ∧
    ∀ f, segNum f = none →
      find_max_segment_number (f :: d) s = find_max_segment_number d s := by
  constructor
  · rw [find_max_eq]
    unfold scannerClaim
    cases h : (audioFilesFor d s).filterMap segNum with
    | nil => simp [h]
    | cons p ps =>
      simp only [h, List.foldl_cons]
      rw [foldl_max_shift ps 0 p]
  · intro f hf
    rcases audioFilesFor_cons d s f with heq | heq
    · rw [find_max_eq, find_max_eq, heq]
    · rw [find_max_eq, find_max_eq, heq, List.filterMap_cons, hf]

/-- Witness for C1: a file with a non-numeric second component is ignored by
the scanner. -/
theorem scanner_max_characterization_witness :
    segNum (str "audio_x.wav") = none ∧
    find_max_segment_number [str "audio_x.wav", str "audio_2.wav"] (str "") =
      find_max_segment_number [str "audio_2.wav"] (str "") :=
  ⟨by decide,
   (scanner_max_characterization [str "audio_2.wav"] (str "")).2 (str "audio_x.wav") (by decide)⟩

/-- Counterexample to C1 as stated: the file audio_-1.wav matches the default
glob and its second component parses to the integer minus one, so the claimed
maximum parsed integer is minus one, while the code returns zero. -/
theorem scanner_claim_counterexample :
    scannerClaim [str "audio_-1.wav"] (str "") = -1 ∧
    find_max_segment_number [str "audio_-1.wav"] (str "") = 0 := by
  constructor
  · decide
  · decide

/-- C2: the default-variant scan never counts a file whose stem ends in the
Spanish marker, and on the directory of the spec scenario (audio one to
three, Spanish audio one to five) it returns three. -/
theorem default_scan_excludes_es :
    find_max_segment_number
      [str "audio_1.wav", str "audio_2.wav", str "audio_3.wav",
       str "audio_1_es.wav", str "audio_2_es.wav", str "audio_3_es.wav",
       str "audio_4_es.wav", str "audio_5_es.wav"] (str "") = 3 ∧
    ∀ (d : List Str) (f : Str),
      (str "_es").isSuffixOf (stem f) = true →
      find_max_segment_number (f :: d) (str "") = find_max_segment_number d (str "") := by
  constructor
  · decide
  · intro d f hf
    rw [find_max_eq, find_max_eq]
    have : audioFilesFor (f :: d) (str "") = audioFilesFor d (str "") := by
      rw [audioFilesFor_default, audioFilesFor_default, List.filter_cons]
      by_cases h1 : matchGlob (str "audio_") (str ".wav") f = true
      · simp [h1, List.filter_cons, hf]
      · simp at h1; simp [h1]
    rw [this]

/-- Witness for C2: a Spanish-suffixed file does not change the default scan. -/
theorem default_scan_excludes_es_witness :
    (str "_es").isSuffixOf (stem (str "audio_9_es.wav")) = true ∧
    find_max_segment_number [str "audio_9_es.wav", str "audio_1.wav"] (str "") =
      find_max_segment_number [str "audio_1.wav"] (str "") :=
  ⟨by decide,
   default_scan_excludes_es.2 [str "audio_1.wav"] (str "audio_9_es.wav") (by decide)⟩

/-- C9: the default-variant exclusion applies only to the Spanish marker: a
matching file whose stem does not end in it contributes its parsed index, so
audio_7_fr.wav alone makes the default variant scan to seven. -/
theorem default_scan_counts_other_tokens :
    find_max_segment_number [str "audio_7_fr.wav"] (str "") = 7 ∧
    ∀ (d : List Str) (f : Str) (k : Int),
      matchGlob (str "audio_") (str ".wav") f = true →
      (str "_es").isSuffixOf (stem f) = false →
      segNum f = some k →
      k ≤ find_max_segment_number (f :: d) (str "") := by
  constructor
  · decide
  · intro d f k hglob hes hseg
    have hmem : f ∈ audioFilesFor (f :: d) (str "") := by
      rw [audioFilesFor_default]
      refine List.mem_filter.mpr ⟨?_, ?_⟩
      · exact List.mem_filter.mpr ⟨List.mem_cons_self f d, hglob⟩
      · simp [hes]
    have hk : k ∈ (audioFilesFor (f :: d) (str "")).filterMap segNum :=
      List.mem_filterMap.mpr ⟨f, hmem, hseg⟩
    rw [find_max_eq]
    exact mem_le_foldl_max hk 0

/-- Witness for C9: the file audio_7_fr.wav matches, is not excluded, parses
to seven, and the scan of a directory holding only it is at least seven. -/
theorem default_scan_counts_other_tokens_witness :
    matchGlob (str "audio_") (str ".wav") (str "audio_7_fr.wav") = true ∧
    segNum (str "audio_7_fr.wav") = some 7 ∧
    (7 : Int) ≤ find_max_segment_number [str "audio_7_fr.wav"] (str "") :=
  ⟨by decide, by decide,
   default_scan_counts_other_tokens.2 [] (str "audio_7_fr.wav") 7
     (by decide) (by decide) (by decide)⟩

/-! ### Segment-loop lemmas -/

/-- A pair is missing exactly when one of its inputs is absent. -/
theorem hasPair_false_of_missing {cd : List Str} {suffix : Str} {i : Nat}
    (h : imageName i ∉ cd ∨ audioName suffix i ∉ cd) :
    hasPair cd suffix i = false := by
  rcases h with h | h <;> simp [hasPair, h]

/-- When the tool is installed and every invocation succeeds, the loop
completes, warning about exactly the indices with a missing input and
creating exactly the indices with both inputs, in order. -/
theorem segLoop_done_of_allOk (tc : Transcoder) (cd : List Str) (suffix : Str)
    (hins : tc.installed = true) :
    ∀ (idxs sk inv cr : List Nat), (∀ i ∈ idxs, tc.segOk i = true) →
      segLoop tc cd suffix idxs sk inv cr =
        .done (sk ++ idxs.filter (fun i => !hasPair cd suffix i))
              (inv ++ idxs.filter (hasPair cd suffix))
              (cr ++ idxs.filter (hasPair cd suffix)) := by
  intro idxs
  induction idxs with
  | nil => intro sk inv cr _; simp [segLoop]
  | cons i rest ih =>
    intro sk inv cr hok
    have hrest : ∀ j ∈ rest, tc.segOk j = true := fun j hj => hok j (List.mem_cons_of_mem i hj)
    by_cases h1 : imageName i ∈ cd
    · by_cases h2 : audioName suffix i ∈ cd
      · have hs : tc.segOk i = true := hok i (List.mem_cons_self i rest)
        simp only [segLoop, h1, if_true, h2, hins, hs, List.filter_cons]
        rw [ih (sk) (inv ++ [i]) (cr ++ [i]) hrest]
        simp [hasPair, h1, h2, List.append_assoc]
      · simp only [segLoop, h1, if_true, h2, if_false, List.filter_cons]
        rw [ih (sk ++ [i]) inv cr hrest]
        simp [hasPair, h1, h2, List.append_assoc]
    · simp only [segLoop, h1, if_false, List.filter_cons]
      rw [ih (sk ++ [i]) inv cr hrest]
      simp [hasPair, h1, List.append_assoc]

/-- When the tool is installed the loop never exits the process. -/
theorem segLoop_ne_exit (tc : Transcoder) (cd : List Str) (suffix : Str)
    (hins : tc.installed = true) :
    ∀ (idxs sk inv cr sk2 inv2 cr2 : List Nat),
      segLoop tc cd suffix idxs sk inv cr ≠ .exit1 sk2 inv2 cr2 := by
  intro idxs
  induction idxs with
  | nil => intro sk inv cr sk2 inv2 cr2 h; simp [segLoop] at h
  | cons i rest ih =>
    intro sk inv cr sk2 inv2 cr2 h
    by_cases h1 : imageName i ∈ cd
    · by_cases h2 : audioName suffix i ∈ cd
      · by_cases h3 : tc.segOk i = true
        · simp only [segLoop, h1, if_true, h2, hins, h3] at h
          exact ih _ _ _ _ _ _ h
        · simp only [segLoop, h1, if_true, h2, hins, if_true] at h
          simp [h3] at h
      · simp only [segLoop, h1, if_true, h2, if_false] at h
        exact ih _ _ _ _ _ _ h
    · simp only [segLoop, h1, if_false] at h
      exact ih _ _ _ _ _ _ h

/-- When the tool is installed and the loop completes, the accumulated lists
are exactly the initial ones extended by the missing-input indices and the
present-pair indices respectively, and every invoked index succeeded. -/
theorem segLoop_done_spec (tc : Transcoder) (cd : List Str) (suffix : Str)
    (hins : tc.installed = true) :
    ∀ (idxs sk inv cr sk2 inv2 cr2 : List Nat),
      segLoop tc cd suffix idxs sk inv cr = .done sk2 inv2 cr2 →
      sk2 = sk ++ idxs.filter (fun i => !hasPair cd suffix i) ∧
      inv2 = inv ++ idxs.filter (hasPair cd suffix) ∧
      cr2 = cr ++ idxs.filter (hasPair cd suffix) ∧
      ∀ i ∈ idxs.filter (hasPair cd suffix), tc.segOk i = true := by
  intro idxs
  induction idxs with
  | nil =>
    intro sk inv cr sk2 inv2 cr2 h
    simp [segLoop] at h
    simp [h.1, h.2.1, h.2.2]
  | cons i rest ih =>
    intro sk inv cr sk2 inv2 cr2 h
    by_cases h1 : imageName i ∈ cd
    · by_cases h2 : audioName suffix i ∈ cd
      · by_cases h3 : tc.segOk i = true
        · simp only [segLoop, h1, if_true, h2, hins, h3] at h
          obtain ⟨e1, e2, e3, e4⟩ := ih _ _ _ _ _ _ h
          refine ⟨?_, ?_, ?_, ?_⟩
          · simpa [List.filter_cons, hasPair, h1, h2] using e1
          · simp only [List.filter_cons, hasPair, h1, h2]
            simpa [List.append_assoc] using e2
          · simp only [List.filter_cons, hasPair, h1, h2]
            simpa [List.append_assoc] using e3
          · intro j hj
            have hp : hasPair cd suffix i = true := by simp [hasPair, h1, h2]
            rw [List.filter_cons] at hj
            simp only [hp, if_true, List.mem_cons] at hj
            rcases hj with rfl | hj
            · exact h3
            · exact e4 j hj
        · simp only [segLoop, h1, if_true, h2, hins, if_true] at h
          simp [h3] at h
      · simp only [segLoop, h1, if_true, h2, if_false] at h
        obtain ⟨e1, e2, e3, e4⟩ := ih _ _ _ _ _ _ h
        have hp : hasPair cd suffix i = false := hasPair_false_of_missing (Or.inr h2)
        refine ⟨?_, ?_, ?_, ?_⟩
        · simpa [List.filter_cons, hp, List.append_assoc] using e1
        · simpa [List.filter_cons, hp] using e2
        · simpa [List.filter_cons, hp] using e3
        · intro j hj
          simp only [List.filter_cons, hp, if_false] at hj
          exact e4 j hj
    · simp only [segLoop, h1, if_false] at h
      obtain ⟨e1, e2, e3, e4⟩ := ih _ _ _ _ _ _ h
      have hp : hasPair cd suffix i = false := hasPair_false_of_missing (Or.inl h1)
      refine ⟨?_, ?_, ?_, ?_⟩
      · simpa [List.filter_cons, hp, List.append_assoc] using e1
      · simpa [List.filter_cons, hp] using e2
      · simpa [List.filter_cons, hp] using e3
      · intro j hj
        simp only [List.filter_cons, hp, if_false] at hj
        exact e4 j hj

/-- When the tool is installed and the loop ends in a failure at an index,
the traversed indices decompose as a prefix before that index: the prefix
contributed its missing and present indices to the accumulators, every
invoked prefix index succeeded, the failing index has both inputs, its
invocation failed, and nothing after it was touched. -/
theorem segLoop_fail_spec (tc : Transcoder) (cd : List Str) (suffix : Str)
    (hins : tc.installed = true) :
    ∀ (idxs sk inv cr : List Nat) (j : Nat) (sk2 inv2 cr2 : List Nat),
      segLoop tc cd suffix idxs sk inv cr = .fail j sk2 inv2 cr2 →
      ∃ pre post, idxs = pre ++ j :: post ∧
        sk2 = sk ++ pre.filter (fun i => !hasPair cd suffix i) ∧
        inv2 = inv ++ pre.filter (hasPair cd suffix) ++ [j] ∧
        cr2 = cr ++ pre.filter (hasPair cd suffix) ∧
        (∀ i ∈ pre.filter (hasPair cd suffix), tc.segOk i = true) ∧
        hasPair cd suffix j = true ∧ tc.segOk j = false := by
  intro idxs
  induction idxs with
  | nil => intro sk inv cr j sk2 inv2 cr2 h; simp [segLoop] at h
  | cons i rest ih =>
    intro sk inv cr j sk2 inv2 cr2 h
    by_cases h1 : imageName i ∈ cd
    · by_cases h2 : audioName suffix i ∈ cd
      · by_cases h3 : tc.segOk i = true
        · simp only [segLoop, h1, if_true, h2, hins, h3] at h
          obtain ⟨pre, post, hsp, e1, e2, e3, e4, e5, e6⟩ := ih _ _ _ _ _ _ _ h
          have hp : hasPair cd suffix i = true := by simp [hasPair, h1, h2]
          refine ⟨i :: pre, post, by simp [hsp], ?_, ?_, ?_, ?_, e5, e6⟩
          · simpa [List.filter_cons, hp] using e1
          · simp only [List.filter_cons, hp, if_true]
            simpa [List.append_assoc] using e2
          · simp only [List.filter_cons, hp, if_true]
            simpa [List.append_assoc] using e3
          · intro a ha
            simp only [List.filter_cons, hp, if_true, List.mem_cons] at ha
            rcases ha with rfl | ha
            · exact h3
            · exact e4 a ha
        · rw [Bool.not_eq_true] at h3
          simp only [segLoop, h1, if_true, h2, hins, h3] at h
          injection h with hj hsk hinv hcr
          subst hj hsk hinv hcr
          refine ⟨[], rest, rfl, by simp, by simp, by simp, by simp, ?_, h3⟩
          simp [hasPair, h1, h2]
      · simp only [segLoop, h1, if_true, h2, if_false] at h
        obtain ⟨pre, post, hsp, e1, e2, e3, e4, e5, e6⟩ := ih _ _ _ _ _ _ _ h
        have hp : hasPair cd suffix i = false := hasPair_false_of_missing (Or.inr h2)
        refine ⟨i :: pre, post, by simp [hsp], ?_, ?_, ?_, ?_, e5, e6⟩
        · simpa [List.filter_cons, hp, List.append_assoc] using e1
        · simpa [List.filter_cons, hp] using e2
        · simpa [List.filter_cons, hp] using e3
        · intro a ha
          simp only [List.filter_cons, hp, if_false] at ha
          exact e4 a ha
    · simp only [segLoop, h1, if_false] at h
      obtain ⟨pre, post, hsp, e1, e2, e3, e4, e5, e6⟩ := ih _ _ _ _ _ _ _ h
      have hp : hasPair cd suffix i = false := hasPair_false_of_missing (Or.inl h1)
      refine ⟨i :: pre, post, by simp [hsp], ?_, ?_, ?_, ?_, e5, e6⟩
      · simpa [List.filter_cons, hp, List.append_assoc] using e1
      · simpa [List.filter_cons, hp] using e2
      · simpa [List.filter_cons, hp] using e3
      · intro a ha
        simp only [List.filter_cons, hp, if_false] at ha
        exact e4 a ha

/-- The created indices of any loop outcome extend the accumulator by the
present pairs of some prefix of the traversed indices. -/
theorem segLoop_created_sub (tc : Transcoder) (cd : List Str) (suffix : Str) :
    ∀ (idxs sk inv cr : List Nat),
      ∃ pre post, idxs = pre ++ post ∧
        createdOf (segLoop tc cd suffix idxs sk inv cr) =
          cr ++ pre.filter (hasPair cd suffix) := by
  intro idxs
  induction idxs with
  | nil => intro sk inv cr; exact ⟨[], [], rfl, by simp [segLoop, createdOf]⟩
  | cons i rest ih =>
    intro sk inv cr
    by_cases h1 : imageName i ∈ cd
    · by_cases h2 : audioName suffix i ∈ cd
      · by_cases hins : tc.installed = true
        · by_cases h3 : tc.segOk i = true
          · obtain ⟨pre, post, hsp, hc⟩ := ih sk (inv ++ [i]) (cr ++ [i])
            refine ⟨i :: pre, post, by simp [hsp], ?_⟩
            have hp : hasPair cd suffix i = true := by simp [hasPair, h1, h2]
            simp only [segLoop, h1, if_true, h2, hins, h3]
            rw [hc]
            simp [List.filter_cons, hp, List.append_assoc]
          · rw [Bool.not_eq_true] at h3
            refine ⟨[], i :: rest, rfl, ?_⟩
            simp [segLoop, h1, h2, hins, h3, createdOf]
        · replace hins : tc.installed = false := by simpa using hins
          refine ⟨[], i :: rest, rfl, ?_⟩
          simp [segLoop, h1, h2, hins, createdOf]
      · obtain ⟨pre, post, hsp, hc⟩ := ih (sk ++ [i]) inv cr
        have hp : hasPair cd suffix i = false := hasPair_false_of_missing (Or.inr h2)
        refine ⟨i :: pre, post, by simp [hsp], ?_⟩
        simp only [segLoop, h1, if_true, h2, if_false]
        rw [hc]; simp [List.filter_cons, hp]
    · obtain ⟨pre, post, hsp, hc⟩ := ih (sk ++ [i]) inv cr
      have hp : hasPair cd suffix i = false := hasPair_false_of_missing (Or.inl h1)
      refine ⟨i :: pre, post, by simp [hsp], ?_⟩
      simp only [segLoop, h1, if_false]
      rw [hc]; simp [List.filter_cons, hp]

/-- The created list of a loop over an ascending range is ascending. -/
theorem segLoop_created_pairwise (tc : Transcoder) (cd : List Str) (suffix : Str) (m : Nat) :
    List.Pairwise Nat.lt
      (createdOf (segLoop tc cd suffix (List.range' 1 m) [] [] [])) := by
  obtain ⟨pre, post, hsp, hc⟩ := segLoop_created_sub tc cd suffix (List.range' 1 m) [] [] []
  rw [hc]
  simp only [List.nil_append]
  have hpair : List.Pairwise Nat.lt (List.range' 1 m) := List.pairwise_lt_range' 1 m
  rw [hsp] at hpair
  have hsub : (pre.filter (hasPair cd suffix)).Sublist (pre ++ post) :=
    (List.filter_sublist pre).trans (List.sublist_append_left pre post)
  exact hpair.sublist hsub

/-! ### Facts about process_language -/

/-- The created list of a process_language call is ascending. -/
theorem PL_created_pairwise (tc : Transcoder) (cd : List Str)
    (segDir outDir timestamp suffix : Str) :
    List.Pairwise Nat.lt
      (process_language tc cd segDir outDir timestamp suffix).created := by
  have hsor := segLoop_created_pairwise tc cd suffix
    (find_max_segment_number cd suffix).toNat
  simp only [process_language]
  by_cases h0 : find_max_segment_number cd suffix = 0
  · rw [if_pos h0]; exact List.Pairwise.nil
  · rw [if_neg h0]
    cases hE : segLoop tc cd suffix
        (List.range' 1 (find_max_segment_number cd suffix).toNat) [] [] [] with
    | exit1 sk inv cr => rw [hE] at hsor; simpa [createdOf] using hsor
    | fail j sk inv cr => rw [hE] at hsor; simpa [createdOf] using hsor
    | done sk inv cr =>
      rw [hE] at hsor
      dsimp only
      by_cases hcr : cr = []
      · rw [if_pos hcr]; simpa [createdOf] using hsor
      · rw [if_neg hcr]
        cases hI : tc.installed <;> simpa [createdOf, hI] using hsor

/-- When a process_language call produced a manifest, it has exactly one
line per created index, in creation order, and the created list is
nonempty. -/
theorem PL_manifest_some (tc : Transcoder) (cd : List Str)
    (segDir outDir timestamp suffix : Str) :
    (process_language tc cd segDir outDir timestamp suffix).manifest = none ∨
    ((process_language tc cd segDir outDir timestamp suffix).manifest =
        some (mapManifest segDir suffix
          (process_language tc cd segDir outDir timestamp suffix).created) ∧
      (process_language tc cd segDir outDir timestamp suffix).created ≠ []) := by
  simp only [process_language]
  by_cases h0 : find_max_segment_number cd suffix = 0
  · rw [if_pos h0]; left; rfl
  · rw [if_neg h0]
    cases hE : segLoop tc cd suffix
        (List.range' 1 (find_max_segment_number cd suffix).toNat) [] [] [] with
    | exit1 sk inv cr => left; rfl
    | fail j sk inv cr => left; rfl
    | done sk inv cr =>
      dsimp only
      by_cases hcr : cr = []
      · rw [if_pos hcr]; left; rfl
      · rw [if_neg hcr]
        cases hI : tc.installed
        · right; exact ⟨rfl, hcr⟩
        · right; exact ⟨rfl, hcr⟩

/-- Fields of a process_language call when the tool is installed and every
segment invocation succeeds: the loop completes, warning exactly about the
range indices with a missing input, creating exactly those with both inputs,
and the process does not exit. -/
theorem PL_allOk_fields (tc : Transcoder) (cd : List Str)
    (segDir outDir timestamp suffix : Str)
    (hins : tc.installed = true) (hok : ∀ i, tc.segOk i = true) :
    (process_language tc cd segDir outDir timestamp suffix).skipped =
      (List.range' 1 (find_max_segment_number cd suffix).toNat).filter
        (fun i => !hasPair cd suffix i) ∧
    (process_language tc cd segDir outDir timestamp suffix).created =
      (List.range' 1 (find_max_segment_number cd suffix).toNat).filter
        (hasPair cd suffix) ∧
    (process_language tc cd segDir outDir timestamp suffix).exitCode = none := by
  have hloop := segLoop_done_of_allOk tc cd suffix hins
      (List.range' 1 (find_max_segment_number cd suffix).toNat) [] [] []
      (fun i _ => hok i)
  simp only [List.nil_append] at hloop
  simp only [process_language]
  by_cases h0 : find_max_segment_number cd suffix = 0
  · rw [if_pos h0]
    simp [h0]
  · rw [if_neg h0, hloop]
    dsimp only
    by_cases hcr :
        (List.range' 1 (find_max_segment_number cd suffix).toNat).filter
          (hasPair cd suffix) = []
    · rw [if_pos hcr]; exact ⟨rfl, rfl, rfl⟩
    · rw [if_neg hcr]
      rw [if_pos hins]
      exact ⟨rfl, rfl, rfl⟩

/-! ### Fixtures for concrete runs -/

/-- Transcoder oracle for which every invocation succeeds. -/
def tcOkAll : Transcoder := ⟨true, fun _ => true, true⟩

/-- Transcoder oracle failing exactly on segment index two. -/
def tcFailAt2 : Transcoder := ⟨true, fun i => decide (i ≠ 2), true⟩

/-- Transcoder oracle failing on every segment invocation. -/
def tcFailSeg : Transcoder := ⟨true, fun _ => false, true⟩

/-- Content directory of the skip scenario: pairs one and three complete,
image two missing. -/
def dirPairs13 : List Str :=
  [str "image_1.png", str "image_3.png",
   str "audio_1.wav", str "audio_2.wav", str "audio_3.wav"]

/-- Content directory with complete pairs one to three. -/
def dirPairsFull : List Str :=
  [str "image_1.png", str "image_2.png", str "image_3.png",
   str "audio_1.wav", str "audio_2.wav", str "audio_3.wav"]

/-- Segments directory path used by the concrete runs. -/
def segDirW : Str := str "/content/segments"

/-- Timestamp used by the concrete runs. -/
def tsW : Str := str "20260101_000000"

/-! ### Claims C3, C4, C5 -/

/-- C3: when the tool is installed and every invocation succeeds, each index
of the range whose image or audio input is absent is warned about and skipped
while processing continues, and the created list is exactly the ascending
list of indices whose two inputs exist. -/
theorem builder_skips_missing_pairs (tc : Transcoder) (cd : List Str)
    (segDir outDir timestamp suffix : Str)
    (hins : tc.installed = true) (hok : ∀ i, tc.segOk i = true) :
    (∀ i ∈ List.range' 1 (find_max_segment_number cd suffix).toNat,
        imageName i ∉ cd ∨ audioName suffix i ∉ cd →
          i ∈ (process_language tc cd segDir outDir timestamp suffix).skipped ∧
          i ∉ (process_language tc cd segDir outDir timestamp suffix).created) ∧
    (process_language tc cd segDir outDir timestamp suffix).created =
      (List.range' 1 (find_max_segment_number cd suffix).toNat).filter
        (hasPair cd suffix) ∧
    List.Pairwise Nat.lt (process_language tc cd segDir outDir timestamp suffix).created ∧
    (process_language tc cd segDir outDir timestamp suffix).exitCode = none := by
  obtain ⟨hsk, hcr, hex⟩ :=
    PL_allOk_fields tc cd segDir outDir timestamp suffix hins hok
  refine ⟨?_, hcr, PL_created_pairwise tc cd segDir outDir timestamp suffix, hex⟩
  intro i hi hmiss
  have hp : hasPair cd suffix i = false := hasPair_false_of_missing hmiss
  constructor
  · rw [hsk]
    exact List.mem_filter.mpr ⟨hi, by simp [hp]⟩
  · rw [hcr]
    intro hc
    have := (List.mem_filter.mp hc).2
    rw [hp] at this
    exact Bool.false_ne_true this

/-- Witness for C3: on a directory with pairs one and three complete and
image two missing, the builder creates exactly indices one and three, warns
about two, and does not abort. -/
theorem builder_skips_missing_pairs_witness :
    (process_language tcOkAll dirPairs13 segDirW mandarinDir tsW (str "")).created = [1, 3] ∧
    2 ∈ (process_language tcOkAll dirPairs13 segDirW mandarinDir tsW (str "")).skipped ∧
    2 ∉ (process_language tcOkAll dirPairs13 segDirW mandarinDir tsW (str "")).created ∧
    (process_language tcOkAll dirPairs13 segDirW mandarinDir tsW (str "")).exitCode = none := by
  have h := builder_skips_missing_pairs tcOkAll dirPairs13 segDirW mandarinDir tsW (str "")
    rfl (fun i => rfl)
  have h2 := h.1 2 (by decide) (by decide)
  exact ⟨by decide, h2.1, h2.2, h.2.2.2⟩

/-- C4: when the tool is installed and an invoked index failed, the variant
run returns failure, no manifest is written, concatenation is never invoked,
the process does not exit, no index beyond the failing one is invoked, and
every created index precedes the failing one. -/
theorem builder_fatal_on_transcoder_failure (tc : Transcoder) (cd : List Str)
    (segDir outDir timestamp suffix : Str) (i : Nat)
    (hins : tc.installed = true)
    (hmem : i ∈ (process_language tc cd segDir outDir timestamp suffix).invoked)
    (hfail : tc.segOk i = false) :
    (process_language tc cd segDir outDir timestamp suffix).retVal = false ∧
    (process_language tc cd segDir outDir timestamp suffix).manifest = none ∧
    (process_language tc cd segDir outDir timestamp suffix).concatInvoked = false ∧
    (process_language tc cd segDir outDir timestamp suffix).exitCode = none ∧
    (∀ j ∈ (process_language tc cd segDir outDir timestamp suffix).invoked, j ≤ i) ∧
    (∀ j ∈ (process_language tc cd segDir outDir timestamp suffix).created, j < i) := by
  revert hmem
  simp only [process_language]
  by_cases h0 : find_max_segment_number cd suffix = 0
  · rw [if_pos h0]
    intro hmem
    simp at hmem
  · rw [if_neg h0]
    cases hE : segLoop tc cd suffix
        (List.range' 1 (find_max_segment_number cd suffix).toNat) [] [] [] with
    | exit1 sk inv cr =>
      exact absurd hE (segLoop_ne_exit tc cd suffix hins _ _ _ _ _ _ _)
    | done sk inv cr =>
      intro hmem
      exfalso
      obtain ⟨e1, e2, e3, e4⟩ := segLoop_done_spec tc cd suffix hins _ _ _ _ _ _ _ hE
      have hi : i ∈ inv := by
        dsimp only at hmem
        by_cases hcr : cr = []
        · rw [if_pos hcr] at hmem; exact hmem
        · rw [if_neg hcr] at hmem
          cases hI : tc.installed <;> rw [hI] at hmem <;> simpa using hmem
      rw [e2] at hi
      simp only [List.nil_append] at hi
      have := e4 i hi
      rw [hfail] at this
      exact Bool.false_ne_true this
    | fail j sk inv cr =>
      intro hmem
      dsimp only at hmem ⊢
      obtain ⟨pre, post, hsp, e1, e2, e3, e4, e5, e6⟩ :=
        segLoop_fail_spec tc cd suffix hins _ _ _ _ _ _ _ _ hE
      simp only [List.nil_append] at e1 e2 e3
      have hpw := List.pairwise_lt_range' 1 (find_max_segment_number cd suffix).toNat
      rw [hsp] at hpw
      have hlt : ∀ a ∈ pre, a < j :=
        fun a ha => (List.pairwise_append.mp hpw).2.2 a ha j (List.mem_cons_self j post)
      have hij : i = j := by
        rw [e2] at hmem
        rcases List.mem_append.mp hmem with hm | hm
        · exfalso
          have := e4 i hm
          rw [hfail] at this
          exact Bool.false_ne_true this
        · simpa using hm
      subst hij
      refine ⟨rfl, rfl, rfl, rfl, ?_, ?_⟩
      · intro k hk
        rw [e2] at hk
        rcases List.mem_append.mp hk with hm | hm
        · exact le_of_lt (hlt k (List.mem_of_mem_filter hm))
        · simp at hm; omega
      · intro k hk
        rw [e3] at hk
        exact hlt k (List.mem_of_mem_filter hk)

/-- Witness for C4: with the tool failing exactly on index two of a complete
three-pair directory, index two is invoked and fails, the run returns
failure with no manifest and no concatenation, and index three is never
invoked. -/
theorem builder_fatal_on_transcoder_failure_witness :
    2 ∈ (process_language tcFailAt2 dirPairsFull segDirW mandarinDir tsW (str "")).invoked ∧
    (process_language tcFailAt2 dirPairsFull segDirW mandarinDir tsW (str "")).retVal = false ∧
    (process_language tcFailAt2 dirPairsFull segDirW mandarinDir tsW (str "")).manifest = none ∧
    (process_language tcFailAt2 dirPairsFull segDirW mandarinDir tsW (str "")).concatInvoked = false ∧
    3 ∉ (process_language tcFailAt2 dirPairsFull segDirW mandarinDir tsW (str "")).invoked := by
  have hm : 2 ∈ (process_language tcFailAt2 dirPairsFull segDirW mandarinDir tsW (str "")).invoked := by
    decide
  have h := builder_fatal_on_transcoder_failure tcFailAt2 dirPairsFull segDirW mandarinDir tsW
    (str "") 2 rfl hm (by decide)
  refine ⟨hm, h.1, h.2.1, h.2.2.1, ?_⟩
  intro hc
  have := h.2.2.2.2.1 3 hc
  omega

/-- C5: whenever the manifest file is written, its lines are exactly one
quoted-absolute-path line per created artifact, in the ascending creation
order of the created indices, and each line has the quoted form ending in a
newline. -/
theorem manifest_matches_created (tc : Transcoder) (cd : List Str)
    (segDir outDir timestamp suffix : Str) (L : List Str)
    (hman : (process_language tc cd segDir outDir timestamp suffix).manifest = some L) :
    L = mapManifest segDir suffix
      (process_language tc cd segDir outDir timestamp suffix).created ∧
    (process_language tc cd segDir outDir timestamp suffix).created ≠ [] ∧
    List.Pairwise Nat.lt (process_language tc cd segDir outDir timestamp suffix).created ∧
    ∀ k, manifestLineAt segDir suffix k =
      str "file " ++ [quoteC] ++ (segDir ++ sep ++ segmentFileName suffix k) ++ [quoteC, nlC] := by
  rcases PL_manifest_some tc cd segDir outDir timestamp suffix with hnone | ⟨hsome, hne⟩
  · rw [hman] at hnone; cases hnone
  · rw [hman] at hsome
    refine ⟨by injection hsome, hne,
      PL_created_pairwise tc cd segDir outDir timestamp suffix, fun k => rfl⟩

/-- Witness for C5: on the complete three-pair directory with a fully
successful tool, the manifest holds the three lines for indices one, two,
three in order. -/
theorem manifest_matches_created_witness :
    mapManifest segDirW (str "") [1, 2, 3] =
      mapManifest segDirW (str "")
        (process_language tcOkAll dirPairsFull segDirW mandarinDir tsW (str "")).created ∧
    (process_language tcOkAll dirPairsFull segDirW mandarinDir tsW (str "")).created ≠ [] ∧
    List.Pairwise Nat.lt
      (process_language tcOkAll dirPairsFull segDirW mandarinDir tsW (str "")).created := by
  have h := manifest_matches_created tcOkAll dirPairsFull segDirW mandarinDir tsW (str "")
    (mapManifest segDirW (str "") [1, 2, 3]) (by decide)
  exact ⟨h.1, h.2.1, h.2.2.1⟩

/-! ### Facts about main -/

/-- With the tool installed, a process_language call never exits the
process. -/
theorem PL_exitCode_none (tc : Transcoder) (cd : List Str)
    (segDir outDir timestamp suffix : Str) (hins : tc.installed = true) :
    (process_language tc cd segDir outDir timestamp suffix).exitCode = none := by
  simp only [process_language]
  by_cases h0 : find_max_segment_number cd suffix = 0
  · rw [if_pos h0]
  · rw [if_neg h0]
    cases hE : segLoop tc cd suffix
        (List.range' 1 (find_max_segment_number cd suffix).toNat) [] [] [] with
    | exit1 sk inv cr =>
      exact absurd hE (segLoop_ne_exit tc cd suffix hins _ _ _ _ _ _ _)
    | fail j sk inv cr => rfl
    | done sk inv cr =>
      dsimp only
      by_cases hcr : cr = []
      · rw [if_pos hcr]
      · rw [if_neg hcr, if_pos hins]

/-- The final output path a process_language call computes is the output
directory joined with the timestamp and the mp4 extension. -/
theorem PL_finalOutput_eq (tc : Transcoder) (cd : List Str)
    (segDir outDir timestamp suffix : Str) (p : Str)
    (h : (process_language tc cd segDir outDir timestamp suffix).finalOutput = some p) :
    p = outDir ++ sep ++ timestamp ++ str ".mp4" := by
  revert h
  simp only [process_language]
  by_cases h0 : find_max_segment_number cd suffix = 0
  · rw [if_pos h0]; intro h; cases h
  · rw [if_neg h0]
    cases hE : segLoop tc cd suffix
        (List.range' 1 (find_max_segment_number cd suffix).toNat) [] [] [] with
    | exit1 sk inv cr => intro h; cases h
    | fail j sk inv cr => intro h; cases h
    | done sk inv cr =>
      dsimp only
      by_cases hcr : cr = []
      · rw [if_pos hcr]; intro h; cases h
      · rw [if_neg hcr]
        cases hI : tc.installed
        · intro h; injection h with h; exact h.symm
        · intro h; injection h with h; exact h.symm

/-! ### Claims C6, C7, C8, C10 -/

/-- C6: with the tool installed, a variant failure is isolated: whenever the
content directory is valid, every variant whose scan is positive is attempted
by the orchestrator, whatever the outcome of the other variant. -/
theorem orchestrator_attempts_all_variants (m : MainEnv)
    (hdir : m.dirValid = true) (hins : m.tc.installed = true) :
    (find_max_segment_number m.files (str "") > 0 →
      (main m).mandarinRes.isSome = true) ∧
    (find_max_segment_number m.files (str "_es") > 0 →
      (main m).spanishRes.isSome = true) := by
  simp only [main, hdir, Bool.not_true, Bool.false_eq_true, if_false]
  by_cases hm : find_max_segment_number m.files (str "") > 0
  · rw [if_pos hm,
      PL_exitCode_none m.tc m.files (m.cdPath ++ sep ++ str "segments") mandarinDir m.now
        (str "") hins]
    dsimp only
    by_cases hs : find_max_segment_number m.files (str "_es") > 0
    · rw [if_pos hs,
        PL_exitCode_none m.tc m.files (m.cdPath ++ sep ++ str "segments") spanishDir m.now
          (str "_es") hins]
      exact ⟨fun _ => rfl, fun _ => rfl⟩
    · rw [if_neg hs]
      exact ⟨fun _ => rfl, fun hc => absurd hc hs⟩
  · rw [if_neg hm]
    by_cases hs : find_max_segment_number m.files (str "_es") > 0
    · rw [if_pos hs,
        PL_exitCode_none m.tc m.files (m.cdPath ++ sep ++ str "segments") spanishDir m.now
          (str "_es") hins]
      exact ⟨fun hc => absurd hc hm, fun _ => rfl⟩
    · rw [if_neg hs]
      exact ⟨fun hc => absurd hc hm, fun hc => absurd hc hs⟩

/-- Content directory for the isolation scenario: the default variant is
present but will fail (its image is missing) while the Spanish variant can
succeed on index two. -/
def filesC6 : List Str := [str "audio_1.wav", str "audio_2_es.wav", str "image_2.png"]

/-- Run environment for the isolation scenario. -/
def mEnvC6 : MainEnv := ⟨true, filesC6, str "/content", tsW, tcOkAll⟩

/-- Witness for C6: both variants scan positive; the default variant fails
(empty created list) yet the Spanish variant is still attempted. -/
theorem orchestrator_attempts_all_variants_witness :
    find_max_segment_number filesC6 (str "") > 0 ∧
    find_max_segment_number filesC6 (str "_es") > 0 ∧
    (main mEnvC6).mandarinRes.isSome = true ∧
    (main mEnvC6).spanishRes.isSome = true ∧
    ((main mEnvC6).mandarinRes.map PLOut.retVal) = some false := by
  have h := orchestrator_attempts_all_variants mEnvC6 rfl rfl
  exact ⟨by decide, by decide, h.1 (by decide), h.2 (by decide), by decide⟩

/-- C7: the multi-variant run exits with status zero whenever it reaches
completion: with a valid directory and the tool installed this always
happens, whatever each variant returned; and with a valid directory and no
variant present it happens even without the tool. -/
theorem multi_variant_exits_zero (m : MainEnv) :
    (m.dirValid = true → m.tc.installed = true → (main m).exitCode = 0) ∧
    (m.dirValid = true → find_max_segment_number m.files (str "") = 0 →
      find_max_segment_number m.files (str "_es") = 0 → (main m).exitCode = 0) := by
  constructor
  · intro hdir hins
    simp only [main, hdir, Bool.not_true, Bool.false_eq_true, if_false]
    by_cases hm : find_max_segment_number m.files (str "") > 0
    · rw [if_pos hm,
        PL_exitCode_none m.tc m.files (m.cdPath ++ sep ++ str "segments") mandarinDir m.now
          (str "") hins]
      dsimp only
      by_cases hs : find_max_segment_number m.files (str "_es") > 0
      · rw [if_pos hs,
          PL_exitCode_none m.tc m.files (m.cdPath ++ sep ++ str "segments") spanishDir m.now
            (str "_es") hins]
      · rw [if_neg hs]
    · rw [if_neg hm]
      by_cases hs : find_max_segment_number m.files (str "_es") > 0
      · rw [if_pos hs,
          PL_exitCode_none m.tc m.files (m.cdPath ++ sep ++ str "segments") spanishDir m.now
            (str "_es") hins]
      · rw [if_neg hs]
  · intro hdir h1 h2
    simp only [main, hdir, Bool.not_true, Bool.false_eq_true, if_false]
    rw [if_neg (by omega : ¬ find_max_segment_number m.files (str "") > 0),
      if_neg (by omega : ¬ find_max_segment_number m.files (str "_es") > 0)]

/-- Content directory for the all-variants-fail scenario: both variants have
a complete pair at index one, and every segment invocation fails. -/
def filesC7 : List Str := [str "image_1.png", str "audio_1.wav", str "audio_1_es.wav"]

/-- Run environment for the all-variants-fail scenario. -/
def mEnvC7 : MainEnv := ⟨true, filesC7, str "/content", tsW, tcFailSeg⟩

/-- Witness for C7: both variants fail on their transcoder invocation and
the run still exits with status zero. -/
theorem multi_variant_exits_zero_witness :
    (main mEnvC7).exitCode = 0 ∧
    ((main mEnvC7).mandarinRes.map PLOut.retVal) = some false ∧
    ((main mEnvC7).spanishRes.map PLOut.retVal) = some false :=
  ⟨(multi_variant_exits_zero mEnvC7).1 rfl rfl, by decide, by decide⟩

/-- C8: with an invalid content directory the run exits with status one
before doing anything: no directory is created, no scan is performed, and no
variant is processed (hence no transcoder invocation happens). -/
theorem invalid_dir_aborts (m : MainEnv) (h : m.dirValid = false) :
    (main m).exitCode = 1 ∧
    (main m).segmentsDirCreated = false ∧
    (main m).outputDirsCreated = false ∧
    (main m).scans = 0 ∧
    (main m).mandarinRes = none ∧
    (main m).spanishRes = none := by
  simp [main, h]

/-- Run environment with an invalid content directory. -/
def mEnvC8 : MainEnv := ⟨false, dirPairsFull, str "/content", tsW, tcOkAll⟩

/-- Witness for C8: the invalid-directory run exits with status one having
created nothing, scanned nothing and processed no variant. -/
theorem invalid_dir_aborts_witness :
    (main mEnvC8).exitCode = 1 ∧
    (main mEnvC8).segmentsDirCreated = false ∧
    (main mEnvC8).outputDirsCreated = false ∧
    (main mEnvC8).scans = 0 ∧
    (main mEnvC8).mandarinRes = none ∧
    (main mEnvC8).spanishRes = none :=
  invalid_dir_aborts mEnvC8 rfl

/-- C10: the timestamp is computed once per run, so when both variants of a
run reach their final-output stage the two output paths are the respective
output directories joined with the same timestamped mp4 filename. -/
theorem same_timestamp_filename (m : MainEnv) (p1 p2 : Str)
    (h1 : ((main m).mandarinRes.bind PLOut.finalOutput) = some p1)
    (h2 : ((main m).spanishRes.bind PLOut.finalOutput) = some p2) :
    p1 = mandarinDir ++ sep ++ (m.now ++ str ".mp4") ∧
    p2 = spanishDir ++ sep ++ (m.now ++ str ".mp4") := by
  revert h1 h2
  by_cases hdir : m.dirValid = true
  · simp only [main, hdir, Bool.not_true, Bool.false_eq_true, if_false]
    by_cases hm : find_max_segment_number m.files (str "") > 0
    · rw [if_pos hm]
      cases hx : (process_language m.tc m.files (m.cdPath ++ sep ++ str "segments")
          mandarinDir m.now (str "")).exitCode with
      | some c =>
        dsimp only
        intro h1 h2
        cases h2
      | none =>
        dsimp only
        by_cases hs : find_max_segment_number m.files (str "_es") > 0
        · rw [if_pos hs]
          cases hy : (process_language m.tc m.files (m.cdPath ++ sep ++ str "segments")
              spanishDir m.now (str "_es")).exitCode with
          | some c =>
            dsimp only
            intro h1 h2
            simp only [Option.some_bind] at h1 h2
            have e1 := PL_finalOutput_eq _ _ _ _ _ _ _ h1
            have e2 := PL_finalOutput_eq _ _ _ _ _ _ _ h2
            simp [e1, e2, List.append_assoc]
          | none =>
            dsimp only
            intro h1 h2
            simp only [Option.some_bind] at h1 h2
            have e1 := PL_finalOutput_eq _ _ _ _ _ _ _ h1
            have e2 := PL_finalOutput_eq _ _ _ _ _ _ _ h2
            simp [e1, e2, List.append_assoc]
        · rw [if_neg hs]
          intro h1 h2
          cases h2
    · rw [if_neg hm]
      by_cases hs : find_max_segment_number m.files (str "_es") > 0
      · rw [if_pos hs]
        cases hy : (process_language m.tc m.files (m.cdPath ++ sep ++ str "segments")
            spanishDir m.now (str "_es")).exitCode with
        | some c => dsimp only; intro h1 h2; cases h1
        | none => dsimp only; intro h1 h2; cases h1
      · rw [if_neg hs]
        intro h1 h2
        cases h1
  · have hd : m.dirValid = false := by simpa using hdir
    simp only [main, hd, Bool.not_false, if_true]
    intro h1 h2
    cases h1

/-- Run environment where both variants succeed end to end. -/
def mEnvC10 : MainEnv :=
  ⟨true, [str "image_1.png", str "audio_1.wav", str "audio_1_es.wav"],
   str "/content", tsW, tcOkAll⟩

/-- Witness for C10: in a run where both variants reach the final-output
stage, the two final paths carry the same timestamped filename under their
respective output directories. -/
theorem same_timestamp_filename_witness :
    mandarinDir ++ sep ++ (tsW ++ str ".mp4") =
      mandarinDir ++ sep ++ (mEnvC10.now ++ str ".mp4") ∧
    spanishDir ++ sep ++ (tsW ++ str ".mp4") =
      spanishDir ++ sep ++ (mEnvC10.now ++ str ".mp4") := by
  have h := same_timestamp_filename mEnvC10
    (mandarinDir ++ sep ++ (tsW ++ str ".mp4"))
    (spanishDir ++ sep ++ (tsW ++ str ".mp4"))
    (by decide) (by decide)
  exact ⟨h.1 ▸ rfl, h.2 ▸ rfl⟩

end CreateVideo
